import Mathlib

/-!
Verification development for the layout-feature diagnosis scripts
(`analyze-layout-features.py` and the archived `deep-compare-monzo-cnn.py`).

The Python functions are shallowly embedded: numbers are modelled as exact
rationals, Python dictionaries as association lists (the documented invariant
is that feature names are unique), and fallible code paths (exceptions such as
`ZeroDivisionError`, `ValueError`, `KeyError`) as `Option`, with `none`
standing for a raised exception.
-/

set_option maxHeartbeats 1000000

namespace LayoutDiag

/-! ### Character-level models of the Python string operations used -/

/-- Model of Python `s.replace('px', '')`: remove every (left-to-right,
non-overlapping) occurrence of the two-character substring `px`. -/
def replacePx : List Char → List Char
  | 'p' :: 'x' :: rest => replacePx rest
  | c :: rest => c :: replacePx rest
  | [] => []

/-- Model of Python `str.split()` with no separator argument: split on runs of
whitespace, producing no empty tokens.  The first argument accumulates the
current token in reverse. -/
def pySplitAux : List Char → List Char → List (List Char)
  | acc, [] => if acc.isEmpty then [] else [acc.reverse]
  | acc, c :: cs =>
    if c.isWhitespace then
      if acc.isEmpty then pySplitAux [] cs else acc.reverse :: pySplitAux [] cs
    else pySplitAux (c :: acc) cs

/-- Model of Python `str.strip()`: drop leading and trailing whitespace. -/
def pyStrip (cs : List Char) : List Char :=
  ((cs.dropWhile Char.isWhitespace).reverse.dropWhile Char.isWhitespace).reverse

/-- Value of a list of decimal digit characters read in base 10. -/
def digitsToNat (cs : List Char) : ℕ :=
  cs.foldl (fun acc c => acc * 10 + (c.toNat - 48)) 0

def isDigitOrDot (c : Char) : Bool := c.isDigit || c == '.'

/-- Model of Python `float(p)` restricted to the token language it is applied
to in the scripts (strings whose characters, dots removed, pass `isdigit`):
it succeeds exactly on strings of ASCII digits and periods that contain at
most one period and at least one digit, and raises `ValueError` (modelled as
`none`) otherwise — in particular on tokens such as `"1.2.3"`. -/
def pyFloatChars (cs : List Char) : Option ℚ :=
  if cs.all isDigitOrDot then
    match (cs.filter (fun c => c == '.')).length with
    | 0 => if cs.isEmpty then none else some (digitsToNat cs)
    | 1 =>
      if cs = ['.'] then none
      else
        some ((digitsToNat (cs.takeWhile (fun c => c != '.')) : ℚ) +
          (digitsToNat ((cs.dropWhile (fun c => c != '.')).tail) : ℚ) /
            10 ^ ((cs.dropWhile (fun c => c != '.')).tail).length)
    | _ + 2 => none
  else none

/-- Model of Python `str.isdigit()` (restricted to ASCII digits). -/
def pyIsDigitChars (cs : List Char) : Bool := !cs.isEmpty && cs.all Char.isDigit

/-- The filter `p.replace('.', '').isdigit()` applied to each padding token. -/
def keepToken (cs : List Char) : Bool := pyIsDigitChars (cs.filter (fun c => c != '.'))

/-- Sequencing of a fallible parse over a list: `none` as soon as any element
fails, mirroring an exception raised inside a Python list comprehension. -/
def parseAll {α β : Type} (f : α → Option β) : List α → Option (List β)
  | [] => some []
  | x :: xs =>
    match f x, parseAll f xs with
    | some y, some ys => some (y :: ys)
    | _, _ => none

def digitChar (d : ℕ) : Char := Char.ofNat (48 + d)

/-- Fuel-driven decimal rendering of a natural number (the fuel `n + 1` always
suffices); structural so that it reduces inside the kernel. -/
def natCharsAux : ℕ → ℕ → List Char
  | 0, _ => []
  | fuel + 1, n =>
    if n < 10 then [digitChar n] else natCharsAux fuel (n / 10) ++ [digitChar (n % 10)]

/-- Model of Python `str(i)` for a non-negative integer index. -/
def pyStr (n : ℕ) : String := ⟨natCharsAux (n + 1) n⟩

/-! ### Data model (field names follow the artifact documents) -/

structure BBox where
  x : ℚ
  y : ℚ
  w : ℚ
  h : ℚ
deriving DecidableEq

structure ElemStyles where
  padding : Option String := none
  backgroundImage : Option String := none
deriving DecidableEq

/-- One raw per-element style/geometry record.  The bounding box is modelled
as always present (an element lacking one raises before any of the behaviour
studied here). -/
structure Element where
  tag : Option String := none
  textContent : Option String := none
  styles : ElemStyles := {}
  bbox : BBox
deriving DecidableEq

instance : Inhabited Element := ⟨{ bbox := ⟨0, 0, 0, 0⟩ }⟩

structure PageMeta where
  width : ℚ
  height : ℚ
deriving DecidableEq

/-! ### Raw Statistics Analyzer (`deep-compare-monzo-cnn.py`) -/

/-- `s.get('tag') in ['img','picture','video'] or (s.get('styles',{}).get('backgroundImage') and s['styles']['backgroundImage'] != 'none')` -/
def is_img (s : Element) : Bool :=
  (match s.tag with
   | some t => t == "img" || t == "picture" || t == "video"
   | none => false) ||
  (match s.styles.backgroundImage with
   | some b => !(b == "") && !(b == "none")
   | none => false)

/-- `s.get('textContent') and len(s['textContent'].strip()) > 0` -/
def is_text (s : Element) : Bool :=
  match s.textContent with
  | some t => !(t == "") && !(pyStrip t.data).isEmpty
  | none => false

def bboxArea (s : Element) : ℚ := s.bbox.w * s.bbox.h

/-- `img_elements = [s for s in styles if ...]`. -/
def img_elements_of (styles : List Element) : List Element := styles.filter is_img

/-- `text_elements = [s for s in styles if ...]`. -/
def text_elements_of (styles : List Element) : List Element := styles.filter is_text

/-- `total_element_area = sum(w*h for s in styles)`. -/
def total_area_of (styles : List Element) : ℚ := (styles.map bboxArea).sum

/-- `img_area = sum(w*h for s in img_elements)`. -/
def img_area_of (styles : List Element) : ℚ := ((img_elements_of styles).map bboxArea).sum

/-- `text_area = sum(w*h for s in text_elements)`. -/
def text_area_of (styles : List Element) : ℚ := ((text_elements_of styles).map bboxArea).sum

/-- `padding_str.replace('px','').split()` followed by
`[float(p) for p in parts if p.replace('.','').isdigit()]`. -/
def parsePadding (s : String) : Option (List ℚ) :=
  parseAll pyFloatChars ((pySplitAux [] (replacePx s.data)).filter keepToken)

def paddingOf (s : Element) : String := s.styles.padding.getD "0px 0px 0px 0px"

/-- The pooled padding values across all elements; `none` models the Python
loop raising on any element. -/
def all_padding_values (styles : List Element) : Option (List ℚ) :=
  (parseAll (fun s => parsePadding (paddingOf s)) styles).map List.flatten

/-- The square of the source's `calculate_std` (the code returns this value's
square root, which is irrational in general; no claim depends on the rooted
value, so the model carries the radicand). -/
def calculate_std_sq (values : List ℚ) : ℚ :=
  if values.isEmpty then 0
  else
    ((values.map (fun x => (x - values.sum / (values.length : ℚ)) ^ 2)).sum) /
      (values.length : ℚ)

/-- `boxes_overlap`: not disjoint on x and not disjoint on y, with strict
comparisons exactly as in the source. -/
def boxes_overlap (b1 b2 : BBox) : Bool :=
  !(decide (b1.x + b1.w < b2.x) || decide (b2.x + b2.w < b1.x) ||
    decide (b1.y + b1.h < b2.y) || decide (b2.y + b2.h < b1.y))

/-- The bounded overlap loop: `for i, s1 in enumerate(styles[:100])`, inner
loop over `styles[i+1:min(i+20, len(styles))]`. -/
def overlapping_pairs (styles : List Element) : ℕ :=
  ((styles.take 100).enum.map (fun p =>
    (((styles.drop (p.1 + 1)).take (min (p.1 + 20) styles.length - (p.1 + 1))).filter
      (fun s2 => boxes_overlap p.2.bbox s2.bbox)).length)).sum

structure RawStats where
  total_elements : ℕ
  viewport_area : ℚ
  total_element_area : ℚ
  density_ratio : ℚ
  img_elements : ℕ
  text_elements : ℕ
  img_area : ℚ
  text_area : ℚ
  img_text_ratio : ℚ
  padding_values : List ℚ
  padding_mean : ℚ
  padding_std_sq : ℚ
  overlapping_pairs : ℕ
deriving DecidableEq

/-- `analyze_raw_elements`.  `none` models a raised exception: a `ValueError`
from padding parsing, or the `ZeroDivisionError` from
`total_element_area / viewport_area` when the viewport area is zero.  Note the
image/text ratio is guarded (`if text_area > 0 else 0`) but the density ratio
is not. -/
def analyze_raw_elements (styles : List Element) (meta : PageMeta) : Option RawStats :=
  let viewport_area := meta.width * meta.height
  let img_els := img_elements_of styles
  let text_els := text_elements_of styles
  let total_area := total_area_of styles
  let img_area := img_area_of styles
  let text_area := text_area_of styles
  match all_padding_values styles with
  | none => none
  | some pv =>
    if viewport_area = 0 then none
    else some {
      total_elements := styles.length
      viewport_area := viewport_area
      total_element_area := total_area
      density_ratio := total_area / viewport_area
      img_elements := img_els.length
      text_elements := text_els.length
      img_area := img_area
      text_area := text_area
      img_text_ratio := if text_area > 0 then img_area / text_area else 0
      padding_values := pv
      padding_mean := if pv.isEmpty then 0 else pv.sum / (pv.length : ℚ)
      padding_std_sq := if pv.isEmpty then 0 else calculate_std_sq pv
      overlapping_pairs := overlapping_pairs styles
    }

/-! ### Feature Extractor (`extract_layout_features`) -/

def canonicalKeywords : List String :=
  ["hierarchy_depth", "weight_contrast", "density_score", "whitespace_ratio",
   "padding_consistency", "image_text_balance", "border_heaviness", "shadow_depth",
   "grouping_strength", "compositional_complexity", "saturation_energy", "role_distinction"]

/-- `any(keyword in name for keyword in [...])`. -/
def matchesKeyword (name : String) : Bool :=
  canonicalKeywords.any (fun kw => decide (kw.data <:+: name.data))

/-- Model of `vector_data['globalStyleVec']`: the `interpretable` mapping from
stringified index to value, and `metadata.featureNames`. -/
structure VectorDoc where
  interpretable : List (String × ℚ)
  featureNames : List String
deriving DecidableEq

/-- The extraction loop over `enumerate(feature_names)`; a missing
`interpretable[str(i)]` entry for a matched name raises `KeyError` (`none`). -/
def extractGo (interp : List (String × ℚ)) : List (ℕ × String) → Option (List (String × ℚ))
  | [] => some []
  | (i, name) :: rest =>
    if matchesKeyword name then
      match interp.lookup (pyStr i) with
      | none => none
      | some v => (extractGo interp rest).map (fun m => (name, v) :: m)
    else extractGo interp rest

def extract_layout_features (doc : VectorDoc) : Option (List (String × ℚ)) :=
  extractGo doc.interpretable doc.featureNames.enum

/-- The spec's well-formedness invariant for a FeatureVectorDocument: the name
list and the interpretable mapping have equal length, names are unique, and
every index has an entry under its stringified form. -/
def wellFormed (doc : VectorDoc) : Prop :=
  doc.featureNames.Nodup ∧
  doc.interpretable.length = doc.featureNames.length ∧
  ∀ i < doc.featureNames.length, (doc.interpretable.lookup (pyStr i)).isSome = true

/-! ### Cross-Site Comparator (`compare_sites`) -/

/-- A site's extracted feature mapping; `none` models a site whose analysis
failed (`analyze_site` returned `None`). -/
abbrev FeatureMap := List (String × ℚ)

/-- Python truthiness of `sites_data[site]`: `None` and the empty dict are
both falsy. -/
def truthy (m : Option FeatureMap) : Bool :=
  match m with
  | none => false
  | some l => !l.isEmpty

def siteKeys (m : Option FeatureMap) : List String :=
  if truthy m then (m.getD []).map Prod.fst else []

/-- `sorted(set(key for truthy sites))`. -/
def all_features (sites : List (String × Option FeatureMap)) : List String :=
  List.insertionSort (· ≤ ·) ((sites.map (fun p => siteKeys p.2)).flatten.dedup)

/-- `sites_data[site] and feature in sites_data[site]`. -/
def hasFeature (m : Option FeatureMap) (f : String) : Bool :=
  truthy m && ((m.getD []).lookup f).isSome

/-- The per-feature value vector: one entry per site in fixed site order,
`0.0` when the site is falsy or lacks the feature. -/
def valuesFor (sites : List (String × Option FeatureMap)) (f : String) : List ℚ :=
  sites.map (fun p => if hasFeature p.2 f then ((p.2.getD []).lookup f).getD 0 else 0)

/-- Python `max` over a non-empty list (the `[]` case is junk; the code only
evaluates it for features in the union, whose value vector is non-empty). -/
def listMax : List ℚ → ℚ
  | [] => 0
  | x :: xs => xs.foldl max x

def listMin : List ℚ → ℚ
  | [] => 0
  | x :: xs => xs.foldl min x

/-- `variance = max(values) - min(values)`. -/
def varianceFor (sites : List (String × Option FeatureMap)) (f : String) : ℚ :=
  listMax (valuesFor sites f) - listMin (valuesFor sites f)

/-- The three differentiation tiers (green check / yellow tilde / red cross in
the printed table). -/
inductive Tier where
  | good
  | moderate
  | poor
deriving DecidableEq

/-- `if variance > 0.3 ... elif variance > 0.1 ... else ...` -/
def classify (v : ℚ) : Tier :=
  if v > 3/10 then .good else if v > 1/10 then .moderate else .poor

def classifications (sites : List (String × Option FeatureMap)) : List (String × Tier) :=
  (all_features sites).map (fun f => (f, classify (varianceFor sites f)))

def feature_labels : List (String × String) :=
  [("typo_hierarchy_depth", "Hierarchy"),
   ("typo_weight_contrast", "Weight"),
   ("spacing_density_score", "Density"),
   ("spacing_whitespace_ratio", "Whitespace"),
   ("spacing_padding_consistency", "Padding"),
   ("spacing_image_text_balance", "Img/Text"),
   ("shape_border_heaviness", "Borders"),
   ("shape_shadow_depth", "Shadows"),
   ("shape_grouping_strength", "Grouping"),
   ("shape_compositional_complexity", "Complexity"),
   ("brand_color_saturation_energy", "Saturation"),
   ("brand_color_role_distinction", "ColorRole")]

/-- `feature_labels.get(feature, feature)`. -/
def labelOf (f : String) : String := (feature_labels.lookup f).getD f

structure Insight where
  feature : String
  max_site : String
  max_val : ℚ
  min_site : String
  min_val : ℚ
  variance : ℚ
deriving DecidableEq

/-- The insight record built for a good-differentiation feature:
`values.index(max(values))` / `values.index(min(values))` pick the FIRST index
achieving the extreme. -/
def mkInsight (sites : List (String × Option FeatureMap)) (f : String) : Insight :=
  let values := valuesFor sites f
  let maxIdx := values.indexOf (listMax values)
  let minIdx := values.indexOf (listMin values)
  { feature := labelOf f
    max_site := (sites.map Prod.fst).getD maxIdx ""
    max_val := values.getD maxIdx 0
    min_site := (sites.map Prod.fst).getD minIdx ""
    min_val := values.getD minIdx 0
    variance := listMax values - listMin values }

/-- The features for which an insight is appended (`variance > 0.3`). -/
def goodFeatures (sites : List (String × Option FeatureMap)) : List String :=
  (all_features sites).filter (fun f => decide (varianceFor sites f > 3/10))

/-- The descending-variance order used by `insights.sort(key=..., reverse=True)`. -/
def insightGE (a b : Insight) : Prop := b.variance ≤ a.variance

instance : DecidableRel insightGE :=
  fun a b => inferInstanceAs (Decidable (b.variance ≤ a.variance))

instance : IsTotal Insight insightGE := ⟨fun a b => le_total b.variance a.variance⟩

instance : IsTrans Insight insightGE := ⟨fun _ _ _ hab hbc => le_trans hbc hab⟩

/-- `insights.sort(key=..., reverse=True)`: stable sort, descending variance. -/
def insights (sites : List (String × Option FeatureMap)) : List Insight :=
  List.insertionSort insightGE ((goodFeatures sites).map (mkInsight sites))

/-- The comparator's structured output: the per-feature classification and the
ranked insight list (everything else in `compare_sites` is printing). -/
def compare_sites (sites : List (String × Option FeatureMap)) :
    List (String × Tier) × List Insight :=
  (classifications sites, insights sites)

/-! ### Concrete fixtures used by witnesses and counterexamples -/

/-- Left half of the 800×600 viewport, non-image, no text. -/
def e1 : Element := { bbox := ⟨0, 0, 400, 600⟩ }

/-- Right half of the 800×600 viewport, non-image, no text. -/
def e2 : Element := { bbox := ⟨400, 0, 400, 600⟩ }

/-- An element whose padding token `"1.2.3"` passes the digit filter yet fails
`float()`. -/
def elBad : Element := { styles := { padding := some "1.2.3" }, bbox := ⟨0, 0, 0, 0⟩ }

/-- An element with a plain two-token padding shorthand. -/
def padElem : Element := { styles := { padding := some "10px 20px" }, bbox := ⟨0, 0, 0, 0⟩ }

/-- Three sites with values 0.831 / 0.841 / 0.2 for one feature. -/
def sitesEx : List (String × Option FeatureMap) :=
  [("A", some [("f", 831/1000)]), ("B", some [("f", 841/1000)]), ("C", some [("f", 1/5)])]

/-- One surviving site and one failed site. -/
def sitesFail : List (String × Option FeatureMap) :=
  [("A", some [("f", 1/2)]), ("B", none)]

/-- Sites whose mappings are all empty or failed. -/
def sitesEmpty : List (String × Option FeatureMap) :=
  [("A", some []), ("B", none), ("C", some [])]

/-- Two sites carrying the identical value for the same feature. -/
def sitesSame : List (String × Option FeatureMap) :=
  [("A", some [("g", 1/2)]), ("B", some [("g", 1/2)])]

/-- The insight record the comparator produces for `sitesEx`. -/
def insightEx : Insight :=
  { feature := "f", max_site := "B", max_val := 841/1000,
    min_site := "C", min_val := 1/5, variance := 641/1000 }

/-- A small well-formed vector document: names 0 and 2 match canonical
keywords, name 1 does not. -/
def doc1 : VectorDoc :=
  { interpretable := [("0", 1/4), ("1", 3/4), ("2", 1/2)],
    featureNames := ["typo_hierarchy_depth", "typo_family_count", "spacing_density_score"] }

/-! ### Helper lemmas -/

theorem parseAll_mem {α β : Type} (f : α → Option β) :
    ∀ (l : List α) (r : List β), parseAll f l = some r → ∀ y ∈ r, ∃ x ∈ l, f x = some y := by
  intro l
  induction l with
  | nil =>
    intro r h y hy
    simp only [parseAll, Option.some.injEq] at h
    subst h
    cases hy
  | cons x xs ih =>
    intro r h y hy
    rw [show parseAll f (x :: xs) =
        (match f x, parseAll f xs with
         | some y, some ys => some (y :: ys)
         | _, _ => none) from rfl] at h
    cases hx : f x with
    | none =>
      simp only [hx] at h
      exact Option.noConfusion h
    | some v =>
      cases hp : parseAll f xs with
      | none =>
        simp only [hx, hp] at h
        exact Option.noConfusion h
      | some vs =>
        simp only [hx, hp, Option.some.injEq] at h
        subst h
        rcases List.mem_cons.mp hy with rfl | hmem
        · exact ⟨x, List.mem_cons_self x xs, hx⟩
        · obtain ⟨x', hx', hfx'⟩ := ih vs hp y hmem
          exact ⟨x', List.mem_cons_of_mem x hx', hfx'⟩

theorem parseAll_isSome {α β : Type} (f : α → Option β) :
    ∀ l : List α, (∀ x ∈ l, (f x).isSome) → (parseAll f l).isSome := by
  intro l
  induction l with
  | nil => intro _; simp [parseAll]
  | cons x xs ih =>
    intro h
    obtain ⟨v, hv⟩ := Option.isSome_iff_exists.mp (h x (List.mem_cons_self x xs))
    obtain ⟨vs, hvs⟩ := Option.isSome_iff_exists.mp
      (ih (fun y hy => h y (List.mem_cons_of_mem x hy)))
    rw [show parseAll f (x :: xs) =
        (match f x, parseAll f xs with
         | some y, some ys => some (y :: ys)
         | _, _ => none) from rfl]
    simp [hv, hvs]

theorem foldl_max_bounds (l : List ℚ) :
    ∀ acc : ℚ, acc ≤ l.foldl max acc ∧ ∀ x ∈ l, x ≤ l.foldl max acc := by
  induction l with
  | nil => intro acc; exact ⟨le_refl _, by simp⟩
  | cons y ys ih =>
    intro acc
    refine ⟨le_trans (le_max_left acc y) (ih (max acc y)).1, ?_⟩
    intro x hx
    rcases List.mem_cons.mp hx with rfl | hmem
    · exact le_trans (le_max_right acc x) (ih (max acc x)).1
    · exact (ih (max acc y)).2 x hmem

theorem foldl_max_mem (l : List ℚ) :
    ∀ acc : ℚ, l.foldl max acc = acc ∨ l.foldl max acc ∈ l := by
  induction l with
  | nil => intro acc; exact Or.inl rfl
  | cons y ys ih =>
    intro acc
    rcases ih (max acc y) with h | h
    · rcases max_choice acc y with hm | hm
      · exact Or.inl (by simpa [hm] using h)
      · exact Or.inr (List.mem_cons.mpr (Or.inl (by simpa [hm] using h)))
    · exact Or.inr (List.mem_cons_of_mem y h)

theorem foldl_min_bounds (l : List ℚ) :
    ∀ acc : ℚ, l.foldl min acc ≤ acc ∧ ∀ x ∈ l, l.foldl min acc ≤ x := by
  induction l with
  | nil => intro acc; exact ⟨le_refl _, by simp⟩
  | cons y ys ih =>
    intro acc
    refine ⟨le_trans (ih (min acc y)).1 (min_le_left acc y), ?_⟩
    intro x hx
    rcases List.mem_cons.mp hx with rfl | hmem
    · exact le_trans (ih (min acc x)).1 (min_le_right acc x)
    · exact (ih (min acc y)).2 x hmem

theorem foldl_min_mem (l : List ℚ) :
    ∀ acc : ℚ, l.foldl min acc = acc ∨ l.foldl min acc ∈ l := by
  induction l with
  | nil => intro acc; exact Or.inl rfl
  | cons y ys ih =>
    intro acc
    rcases ih (min acc y) with h | h
    · rcases min_choice acc y with hm | hm
      · exact Or.inl (by simpa [hm] using h)
      · exact Or.inr (List.mem_cons.mpr (Or.inl (by simpa [hm] using h)))
    · exact Or.inr (List.mem_cons_of_mem y h)

theorem listMax_mem {l : List ℚ} (h : l ≠ []) : listMax l ∈ l := by
  cases l with
  | nil => exact absurd rfl h
  | cons x xs =>
    rcases foldl_max_mem xs x with h1 | h1
    · exact List.mem_cons.mpr (Or.inl (by simpa [listMax] using h1))
    · exact List.mem_cons_of_mem x (by simpa [listMax] using h1)

theorem le_listMax {l : List ℚ} {x : ℚ} (hx : x ∈ l) : x ≤ listMax l := by
  cases l with
  | nil => cases hx
  | cons y ys =>
    rcases List.mem_cons.mp hx with rfl | hmem
    · exact (foldl_max_bounds ys x).1
    · exact (foldl_max_bounds ys y).2 x hmem

theorem listMin_mem {l : List ℚ} (h : l ≠ []) : listMin l ∈ l := by
  cases l with
  | nil => exact absurd rfl h
  | cons x xs =>
    rcases foldl_min_mem xs x with h1 | h1
    · exact List.mem_cons.mpr (Or.inl (by simpa [listMin] using h1))
    · exact List.mem_cons_of_mem x (by simpa [listMin] using h1)

theorem listMin_le {l : List ℚ} {x : ℚ} (hx : x ∈ l) : listMin l ≤ x := by
  cases l with
  | nil => cases hx
  | cons y ys =>
    rcases List.mem_cons.mp hx with rfl | hmem
    · exact (foldl_min_bounds ys x).1
    · exact (foldl_min_bounds ys y).2 x hmem

theorem pyFloatChars_nonneg {cs : List Char} {q : ℚ} (h : pyFloatChars cs = some q) :
    0 ≤ q := by
  unfold pyFloatChars at h
  split at h
  · split at h
    · split at h
      · exact Option.noConfusion h
      · simp only [Option.some.injEq] at h
        subst h
        positivity
    · split at h
      · exact Option.noConfusion h
      · simp only [Option.some.injEq] at h
        subst h
        positivity
    · exact Option.noConfusion h
  · exact Option.noConfusion h

theorem all_padding_values_nonneg (styles : List Element) (pv : List ℚ)
    (h : all_padding_values styles = some pv) : ∀ q ∈ pv, 0 ≤ q := by
  intro q hq
  unfold all_padding_values at h
  cases hp : parseAll (fun s => parsePadding (paddingOf s)) styles with
  | none => rw [hp] at h; exact Option.noConfusion h
  | some lists =>
    rw [hp] at h
    simp only [Option.map_some', Option.some.injEq] at h
    subst h
    obtain ⟨l, hl, hql⟩ := List.mem_flatten.mp hq
    obtain ⟨el, _, hparse⟩ := parseAll_mem _ styles lists hp l hl
    unfold parsePadding at hparse
    obtain ⟨t, _, hft⟩ := parseAll_mem pyFloatChars _ l hparse q hql
    exact pyFloatChars_nonneg hft

/-! ### Claim theorems -/

/-- C1 (amended).  Only the text-area denominator is special-cased: whenever
padding parsing succeeds, the analyzer returns a result exactly when the
viewport area is non-zero, and in that result `img_text_ratio` is
`img_area / text_area` guarded to `0` when `text_area` is `0`; but when
`viewport_area` is `0` the unguarded division
`total_element_area / viewport_area` raises `ZeroDivisionError` (no result),
rather than returning a `density_ratio` of `0`. -/
theorem claim_C1 (styles : List Element) (meta : PageMeta)
    (hpad : (all_padding_values styles).isSome) :
    (meta.width * meta.height = 0 → analyze_raw_elements styles meta = none) ∧
    (meta.width * meta.height ≠ 0 →
      (analyze_raw_elements styles meta).isSome = true ∧
      (analyze_raw_elements styles meta).map RawStats.img_text_ratio =
        some (if text_area_of styles > 0 then img_area_of styles / text_area_of styles else 0) ∧
      (text_area_of styles = 0 →
        (analyze_raw_elements styles meta).map RawStats.img_text_ratio = some 0)) := by
  obtain ⟨pv, hpv⟩ := Option.isSome_iff_exists.mp hpad
  constructor
  · intro h0
    simp only [analyze_raw_elements, hpv]
    simp [h0]
  · intro hne
    simp only [analyze_raw_elements, hpv]
    rw [if_neg hne]
    refine ⟨by simp, by simp, ?_⟩
    intro ht
    simp [ht]

theorem parsePadding_default : parsePadding "0px 0px 0px 0px" = some [0, 0, 0, 0] := by
  decide

theorem all_padding_values_e12 :
    all_padding_values [e1, e2] = some [0, 0, 0, 0, 0, 0, 0, 0] := by
  simp [all_padding_values, parseAll, paddingOf, e1, e2, parsePadding_default]

theorem boxes_overlap_e12 : boxes_overlap e1.bbox e2.bbox = true := by
  simp [boxes_overlap, e1, e2]

theorem overlapping_pairs_e12 : overlapping_pairs [e1, e2] = 1 := by
  simp [overlapping_pairs, List.enum, List.enumFrom, boxes_overlap_e12]

theorem analyze_e12 :
    (analyze_raw_elements [e1, e2] ⟨800, 600⟩).map
      (fun r => (r.density_ratio, r.overlapping_pairs)) = some (1, 1) := by
  rw [analyze_raw_elements]
  simp only [all_padding_values_e12, overlapping_pairs_e12]
  norm_num [total_area_of, img_area_of, text_area_of, img_elements_of, text_elements_of,
    is_img, is_text, bboxArea, e1, e2]

theorem analyze_e12_overlap :
    (analyze_raw_elements [e1, e2] ⟨800, 600⟩).map RawStats.overlapping_pairs = some 1 := by
  rw [analyze_raw_elements]
  simp only [all_padding_values_e12, overlapping_pairs_e12]
  norm_num

/-- C3 (amended).  On the 800×600 viewport with the two half-screen elements
`(0,0,400,600)` and `(400,0,400,600)` (non-image, no text), the analyzer
returns `density_ratio` exactly `1.0` but an overlapping-pairs count of `1`,
not `0`: the two boxes share the edge `x = 400`, and the overlap predicate
uses strict inequalities, so edge-touching boxes count as overlapping. -/
theorem claim_C3 :
    (analyze_raw_elements [e1, e2] ⟨800, 600⟩).map
      (fun r => (r.density_ratio, r.overlapping_pairs)) = some (1, 1) :=
  analyze_e12

/-- C3 counterexample: the reported overlapping-pairs count on the claimed
scenario is not `0` (it is `1`). -/
theorem claim_C3_counterexample :
    (analyze_raw_elements [e1, e2] ⟨800, 600⟩).map RawStats.overlapping_pairs ≠ some 0 := by
  rw [analyze_e12_overlap]
  decide

/-- C5: the claim that padding parsing never raises is broken by a token with
more than one period, such as `"1.2.3"`: it passes the
`p.replace('.','').isdigit()` filter, yet `float("1.2.3")` raises
`ValueError`, so the whole analysis of the element list raises. -/
theorem claim_C5 :
    keepToken "1.2.3".data = true ∧ parsePadding "1.2.3" = none ∧
    all_padding_values [elBad] = none ∧
    analyze_raw_elements [elBad] ⟨800, 600⟩ = none := by
  have h : all_padding_values [elBad] = none := by decide
  exact ⟨by decide, by decide, h, by simp [analyze_raw_elements, h]⟩

/-- C10: a padding token is kept only if, after removing periods, it consists
solely of ASCII digits (so every kept token is made of digits and periods),
and every pooled padding value is non-negative — negative tokens such as
`"-5px"` are silently dropped and never reach the pooled mean and standard
deviation. -/
theorem claim_C10 :
    (∀ (styles : List Element) (pv : List ℚ), all_padding_values styles = some pv →
        ∀ q ∈ pv, 0 ≤ q) ∧
    (∀ (s : String) (t : List Char),
        t ∈ (pySplitAux [] (replacePx s.data)).filter keepToken →
        ∀ c ∈ t, c.isDigit = true ∨ c = '.') ∧
    parsePadding "-5px" = some [] := by
  refine ⟨all_padding_values_nonneg, ?_, by decide⟩
  intro s t ht c hc
  have hk : keepToken t = true := List.of_mem_filter ht
  unfold keepToken pyIsDigitChars at hk
  obtain ⟨-, hall⟩ := Bool.and_eq_true_iff.mp hk
  by_cases hdot : c = '.'
  · exact Or.inr hdot
  · refine Or.inl ?_
    have hmem : c ∈ t.filter (fun c => c != '.') :=
      List.mem_filter.mpr ⟨hc, bne_iff_ne.mpr hdot⟩
    exact List.all_eq_true.mp hall c hmem

/-- C10 witness: the general statement instantiated on an element with
padding `"10px 20px"`. -/
theorem claim_C10_witness :
    all_padding_values [padElem] = some [10, 20] ∧ (0 : ℚ) ≤ 10 := by
  have h : all_padding_values [padElem] = some [10, 20] := by decide
  exact ⟨h, claim_C10.1 [padElem] [10, 20] h 10 (List.mem_cons_self 10 [20])⟩

theorem enumFrom_map_sum {α : Type} (d : α) (g : ℕ × α → ℕ) :
    ∀ (l : List α) (n : ℕ),
      ((l.enumFrom n).map g).sum =
        ((List.range l.length).map (fun i => g (n + i, l.getD i d))).sum := by
  intro l
  induction l with
  | nil => simp
  | cons a as ih =>
    intro n
    rw [List.enumFrom_cons, List.map_cons, List.sum_cons, ih (n + 1),
      List.length_cons, List.range_succ_eq_map, List.map_cons, List.sum_cons,
      List.map_map]
    congr 1
    apply congrArg
    apply List.map_congr_left
    intro i _
    have hn : n + 1 + i = n + (i + 1) := by omega
    simp [Function.comp, hn]

theorem enum_map_sum {α : Type} (d : α) (g : ℕ × α → ℕ) (l : List α) :
    (l.enum.map g).sum =
      ((List.range l.length).map (fun i => g (i, l.getD i d))).sum := by
  have h := enumFrom_map_sum d g l 0
  rw [show l.enum = l.enumFrom 0 from rfl, h]
  simp

theorem drop_take_eq_range' {α : Type} (d : α) (l : List α) (s m : ℕ)
    (h : s + m ≤ l.length) :
    (l.drop s).take m = (List.range' s m).map (fun j => l.getD j d) := by
  apply List.ext_getElem
  · simp
    omega
  · intro k h1 h2
    have h1' : k < m := by
      have hx := h1
      simp at hx
      omega
    rw [List.getElem_take, List.getElem_drop, List.getElem_map, List.getElem_range']
    rw [List.getD_eq_getElem?_getD,
      List.getElem?_eq_getElem (show s + 1 * k < l.length by omega),
      Option.getD_some]
    simp

theorem slice_filter_length (styles : List Element) (i : ℕ) (hi : i < styles.length)
    (p : Element → Bool) :
    (((styles.drop (i + 1)).take (min (i + 20) styles.length - (i + 1))).filter p).length =
      ((List.range' (i + 1) (min (i + 20) styles.length - (i + 1))).filter
        (fun j => p (styles.getD j default))).length := by
  rw [drop_take_eq_range' default styles (i + 1) _ (by omega), List.filter_map,
    List.length_map]
  rfl

/-- C9.  The bounded overlap estimator's count equals the number of
overlapping pairs `(i, j)` with the anchor `i` ranging over the first `100`
elements and `j` over the index slice `[i+1, min(i+20, n))` — and that slice
never holds more than `19` neighbours; no other pair is examined. -/
theorem claim_C9 (styles : List Element) :
    overlapping_pairs styles =
      ((List.range (min 100 styles.length)).map (fun i =>
        ((List.range' (i + 1) (min (i + 20) styles.length - (i + 1))).filter (fun j =>
          boxes_overlap (styles.getD i default).bbox
            (styles.getD j default).bbox)).length)).sum ∧
    ∀ i : ℕ, min (i + 20) styles.length - (i + 1) ≤ 19 := by
  constructor
  · rw [overlapping_pairs,
      enum_map_sum default
        (fun p => (((styles.drop (p.1 + 1)).take
          (min (p.1 + 20) styles.length - (p.1 + 1))).filter
            (fun s2 => boxes_overlap p.2.bbox s2.bbox)).length)
        (styles.take 100),
      List.length_take]
    apply congrArg
    apply List.map_congr_left
    intro i hi
    have hi' : i < min 100 styles.length := List.mem_range.mp hi
    have hts : (styles.take 100).getD i default = styles.getD i default := by
      rw [List.getD_eq_getElem?_getD, List.getD_eq_getElem?_getD,
        List.getElem?_take_of_lt (by omega)]
    rw [hts]
    exact slice_filter_length styles i (by omega) _
  · intro i
    omega

/-- C1 counterexample: with a zero-area viewport the analyzer raises
(`none`) instead of returning a result with `density_ratio = 0`, already on
the empty element list. -/
theorem claim_C1_counterexample : analyze_raw_elements [] ⟨0, 0⟩ = none := by
  simp [analyze_raw_elements, all_padding_values, parseAll]

theorem mem_all_features {sites : List (String × Option FeatureMap)} {f : String}
    (hf : f ∈ all_features sites) :
    ∃ p ∈ sites, truthy p.2 = true ∧ f ∈ siteKeys p.2 := by
  unfold all_features at hf
  have hf' : f ∈ (sites.map (fun p => siteKeys p.2)).flatten.dedup :=
    (List.perm_insertionSort (· ≤ ·) _).mem_iff.mp hf
  rw [List.mem_dedup] at hf'
  obtain ⟨keys, hkeys, hfk⟩ := List.mem_flatten.mp hf'
  obtain ⟨p, hp, rfl⟩ := List.mem_map.mp hkeys
  have htr : truthy p.2 = true := by
    by_contra h
    simp [siteKeys, h] at hfk
  exact ⟨p, hp, htr, hfk⟩

/-- C2 (amended).  A failed site is excluded from the feature-key union (the
union ranges only over surviving non-empty mappings), but it is NOT excluded
from the per-feature value vectors: every feature's value vector has exactly
one entry per site, and a failed site's entry is the zero-filled value `0.0`;
the remaining sites are still compared. -/
theorem claim_C2 (sites : List (String × Option FeatureMap)) (f : String) (i : ℕ)
    (hi : i < sites.length) :
    (valuesFor sites f).length = sites.length ∧
    ((sites.getD i ("", none)).2 = none → (valuesFor sites f).getD i 1 = 0) ∧
    (f ∈ all_features sites → ∃ p ∈ sites, truthy p.2 = true ∧ f ∈ siteKeys p.2) := by
  refine ⟨by simp [valuesFor], ?_, fun hf => mem_all_features hf⟩
  intro hnone
  have hget : sites[i].2 = none := by
    rw [List.getD_eq_getElem?_getD, List.getElem?_eq_getElem hi] at hnone
    simpa using hnone
  rw [valuesFor, List.getD_eq_getElem?_getD, List.getElem?_map,
    List.getElem?_eq_getElem hi]
  simp [hasFeature, truthy, hget]

/-- C2 counterexample: with site A surviving (feature `f` at `0.5`) and site B
failed, the value vector for `f` is `[0.5, 0.0]` — the failed site contributes
a zero-filled entry, not no entry — and the variance is accordingly `0.5`. -/
theorem claim_C2_counterexample :
    valuesFor sitesFail "f" = [1/2, 0] ∧ varianceFor sitesFail "f" = 1/2 ∧
    (valuesFor sitesFail "f").length = 2 := by
  have hv : valuesFor sitesFail "f" = [1/2, 0] := by
    simp [valuesFor, hasFeature, truthy, sitesFail, List.lookup]
  refine ⟨hv, ?_, by simp [hv]⟩
  rw [varianceFor, hv]
  norm_num [listMax, listMin, max_def, min_def]

/-- C2 witness: the amended claim instantiated at the failed site of
`sitesFail`. -/
theorem claim_C2_witness :
    1 < sitesFail.length ∧
    ((valuesFor sitesFail "f").length = sitesFail.length ∧
      ((sitesFail.getD 1 ("", none)).2 = none → (valuesFor sitesFail "f").getD 1 1 = 0) ∧
      ("f" ∈ all_features sitesFail →
        ∃ p ∈ sitesFail, truthy p.2 = true ∧ "f" ∈ siteKeys p.2)) :=
  ⟨by simp [sitesFail], claim_C2 sitesFail "f" 1 (by simp [sitesFail])⟩

/-- C4.  The comparator's pure computation is total — in the embedding it is a
plain function, so it cannot fail for any input — and when every site's
mapping is empty (or the site failed), it returns an empty classification list
and an empty insight list rather than an error.  (The printing around it,
which hard-codes three table columns, is presentation and out of the
specified core.) -/
theorem claim_C4 (sites : List (String × Option FeatureMap))
    (h : ∀ p ∈ sites, truthy p.2 = false) :
    compare_sites sites = ([], []) := by
  have hflat : (sites.map (fun p => siteKeys p.2)).flatten = [] := by
    rw [List.flatten_eq_nil_iff]
    intro l hl
    obtain ⟨p, hp, rfl⟩ := List.mem_map.mp hl
    simp [siteKeys, h p hp]
  have hall : all_features sites = [] := by
    unfold all_features
    rw [hflat]
    rfl
  unfold compare_sites classifications insights goodFeatures
  rw [hall]
  rfl

/-- C4 witness: three sites, two empty mappings and one failure, yield empty
classifications and insights. -/
theorem claim_C4_witness : compare_sites sitesEmpty = ([], []) :=
  claim_C4 sitesEmpty (by decide)

theorem classify_good_iff (v : ℚ) : classify v = Tier.good ↔ 3/10 < v := by
  unfold classify
  split_ifs with h1 h2
  · exact iff_of_true rfl h1
  · exact iff_of_false (by decide) h1
  · exact iff_of_false (by decide) h1

theorem classify_moderate_iff (v : ℚ) :
    classify v = Tier.moderate ↔ 1/10 < v ∧ v ≤ 3/10 := by
  unfold classify
  split_ifs with h1 h2
  · exact iff_of_false (by decide) (fun hc => (not_lt.mpr hc.2) h1)
  · exact iff_of_true rfl ⟨h2, not_lt.mp h1⟩
  · exact iff_of_false (by decide) (fun hc => h2 hc.1)

theorem classify_poor_iff (v : ℚ) : classify v = Tier.poor ↔ v ≤ 1/10 := by
  unfold classify
  split_ifs with h1 h2
  · exact iff_of_false (by decide) (fun hc => by linarith)
  · exact iff_of_false (by decide) (fun hc => by linarith)
  · exact iff_of_true rfl (not_lt.mp h2)

/-- C6.  For every feature in the union of keys, the ranking variance is
`max − min` over the per-site value vector (one entry per site, `0.0` for a
site missing the key), the feature receives exactly one of the three tiers
with breakpoints `0.30` and `0.10`, and a feature carried identically by
every site has variance exactly `0` and generates no insight. -/
theorem claim_C6 (sites : List (String × Option FeatureMap)) (f : String)
    (hf : f ∈ all_features sites) :
    varianceFor sites f = listMax (valuesFor sites f) - listMin (valuesFor sites f) ∧
    (valuesFor sites f).length = sites.length ∧
    (f, classify (varianceFor sites f)) ∈ classifications sites ∧
    (classify (varianceFor sites f) = Tier.good ↔ 3/10 < varianceFor sites f) ∧
    (classify (varianceFor sites f) = Tier.moderate ↔
      1/10 < varianceFor sites f ∧ varianceFor sites f ≤ 3/10) ∧
    (classify (varianceFor sites f) = Tier.poor ↔ varianceFor sites f ≤ 1/10) ∧
    ((∃ v0, ∀ p ∈ sites, truthy p.2 = true ∧ (p.2.getD []).lookup f = some v0) →
      varianceFor sites f = 0 ∧ f ∉ goodFeatures sites) := by
  refine ⟨rfl, by simp [valuesFor], List.mem_map_of_mem _ hf,
    classify_good_iff _, classify_moderate_iff _, classify_poor_iff _, ?_⟩
  rintro ⟨v0, hv0⟩
  have hvals : valuesFor sites f = List.replicate sites.length v0 := by
    have hpt : ∀ p ∈ sites,
        (if hasFeature p.2 f then ((p.2.getD []).lookup f).getD 0 else 0) = v0 := by
      intro p hp
      obtain ⟨ht, hl⟩ := hv0 p hp
      simp [hasFeature, ht, hl]
    rw [valuesFor, List.map_congr_left hpt, List.map_const']
  have hvar : varianceFor sites f = 0 := by
    by_cases hs : sites = []
    · subst hs
      simp [varianceFor, valuesFor, listMax, listMin]
    · have hne : valuesFor sites f ≠ [] := by
        rw [hvals]
        simpa [List.replicate_eq_nil_iff] using (List.length_eq_zero).not.mpr hs
      have hrep : (List.replicate sites.length v0 : List ℚ) ≠ [] := by
        rw [← hvals]
        exact hne
      have h1 : listMax (valuesFor sites f) = v0 := by
        rw [hvals]
        exact List.eq_of_mem_replicate (listMax_mem hrep)
      have h2 : listMin (valuesFor sites f) = v0 := by
        rw [hvals]
        exact List.eq_of_mem_replicate (listMin_mem hrep)
      rw [varianceFor, h1, h2, sub_self]
  refine ⟨hvar, ?_⟩
  intro hmem
  have hd := List.of_mem_filter hmem
  rw [hvar] at hd
  norm_num at hd

/-- C6 witness: two sites carrying `0.5` for feature `g`: its variance is `0`
and it generates no insight. -/
theorem claim_C6_witness :
    "g" ∈ all_features sitesSame ∧
    (varianceFor sitesSame "g" = 0 ∧ "g" ∉ goodFeatures sitesSame) :=
  ⟨by simp [all_features, siteKeys, truthy, sitesSame, List.insertionSort, List.orderedInsert],
   (claim_C6 sitesSame "g"
      (by simp [all_features, siteKeys, truthy, sitesSame, List.insertionSort,
        List.orderedInsert])).2.2.2.2.2.2
    ⟨1/2, by simp [sitesSame, truthy, List.lookup]⟩⟩

theorem getD_ne_of_lt_indexOf {l : List ℚ} {a : ℚ} :
    ∀ {j : ℕ}, j < l.indexOf a → l.getD j 0 ≠ a := by
  induction l with
  | nil =>
    intro j hj
    simp [List.indexOf] at hj
  | cons x xs ih =>
    intro j hj
    by_cases hxa : x = a
    · rw [List.indexOf_cons_eq xs hxa] at hj
      omega
    · rw [List.indexOf_cons_ne xs hxa] at hj
      cases j with
      | zero =>
        rw [List.getD_cons_zero]
        exact hxa
      | succ j2 =>
        rw [List.getD_cons_succ]
        exact ih (by omega)

theorem valuesFor_length (sites : List (String × Option FeatureMap)) (f : String) :
    (valuesFor sites f).length = sites.length := by
  simp [valuesFor]

theorem valuesFor_getD_indexOf_max (sites : List (String × Option FeatureMap))
    (f : String) (hne : valuesFor sites f ≠ []) :
    (valuesFor sites f).getD
        ((valuesFor sites f).indexOf (listMax (valuesFor sites f))) 0 =
      listMax (valuesFor sites f) := by
  have hmem := listMax_mem hne
  have hlt := List.indexOf_lt_length.mpr hmem
  rw [List.getD_eq_getElem?_getD, List.getElem?_eq_getElem hlt, Option.getD_some]
  exact List.getElem_indexOf hlt

theorem valuesFor_getD_indexOf_min (sites : List (String × Option FeatureMap))
    (f : String) (hne : valuesFor sites f ≠ []) :
    (valuesFor sites f).getD
        ((valuesFor sites f).indexOf (listMin (valuesFor sites f))) 0 =
      listMin (valuesFor sites f) := by
  have hmem := listMin_mem hne
  have hlt := List.indexOf_lt_length.mpr hmem
  rw [List.getD_eq_getElem?_getD, List.getElem?_eq_getElem hlt, Option.getD_some]
  exact List.getElem_indexOf hlt

theorem valuesFor_sitesEx : valuesFor sitesEx "f" = [831/1000, 841/1000, 1/5] := by
  simp [valuesFor, hasFeature, truthy, sitesEx, List.lookup]

theorem all_features_sitesEx : all_features sitesEx = ["f"] := by
  simp [all_features, siteKeys, truthy, sitesEx, List.insertionSort, List.orderedInsert]

theorem goodFeatures_sitesEx : goodFeatures sitesEx = ["f"] := by
  rw [goodFeatures, all_features_sitesEx]
  norm_num [varianceFor, valuesFor_sitesEx, listMax, listMin, max_def, min_def, List.filter]

theorem varianceFor_sitesEx : varianceFor sitesEx "f" = 641/1000 := by
  rw [varianceFor, valuesFor_sitesEx]
  norm_num [listMax, listMin, max_def, min_def]

theorem insights_sitesEx : insights sitesEx = [insightEx] := by
  have hmaxlit : listMax [831/1000, 841/1000, 1/5] = (841 : ℚ)/1000 := by
    norm_num [listMax, max_def]
  have hminlit : listMin [831/1000, 841/1000, 1/5] = (1 : ℚ)/5 := by
    norm_num [listMin, min_def]
  have hidxmaxlit : List.indexOf ((841 : ℚ)/1000) [831/1000, 841/1000, 1/5] = 1 := by
    rw [List.indexOf_cons_ne _ (by norm_num), List.indexOf_cons_eq _ rfl]
  have hidxminlit : List.indexOf ((1 : ℚ)/5) [831/1000, 841/1000, 1/5] = 2 := by
    rw [List.indexOf_cons_ne _ (by norm_num), List.indexOf_cons_ne _ (by norm_num),
      List.indexOf_cons_eq _ rfl]
  have hnames : sitesEx.map Prod.fst = ["A", "B", "C"] := by simp [sitesEx]
  have hlabel : labelOf "f" = "f" := by decide
  rw [insights, goodFeatures_sitesEx]
  simp only [List.map_cons, List.map_nil, List.insertionSort, List.orderedInsert]
  norm_num [mkInsight, valuesFor_sitesEx, hmaxlit, hminlit, hidxmaxlit, hidxminlit,
    hnames, hlabel, insightEx]

/-- C7.  Insights are generated exactly for the features of variance `> 0.30`;
the recorded max/min sites are the sites at the FIRST index achieving the
extreme value (stable tie-break in fixed site order) with their literal
values; the insight list is a permutation of one insight per good feature,
sorted by variance descending; and on the three sites `A: 0.831`, `B: 0.841`,
`C: 0.2` the feature is classified good with max site `B` and min site `C`. -/
theorem claim_C7 :
    (∀ (sites : List (String × Option FeatureMap)) (f : String),
      f ∈ goodFeatures sites →
        (f ∈ all_features sites ∧ 3/10 < varianceFor sites f) ∧
        mkInsight sites f ∈ insights sites ∧
        (valuesFor sites f).indexOf (listMax (valuesFor sites f)) < sites.length ∧
        (valuesFor sites f).getD
            ((valuesFor sites f).indexOf (listMax (valuesFor sites f))) 0 =
          listMax (valuesFor sites f) ∧
        (∀ j < (valuesFor sites f).indexOf (listMax (valuesFor sites f)),
          (valuesFor sites f).getD j 0 ≠ listMax (valuesFor sites f)) ∧
        (valuesFor sites f).indexOf (listMin (valuesFor sites f)) < sites.length ∧
        (valuesFor sites f).getD
            ((valuesFor sites f).indexOf (listMin (valuesFor sites f))) 0 =
          listMin (valuesFor sites f) ∧
        (∀ j < (valuesFor sites f).indexOf (listMin (valuesFor sites f)),
          (valuesFor sites f).getD j 0 ≠ listMin (valuesFor sites f)) ∧
        (mkInsight sites f).max_site =
          (sites.map Prod.fst).getD
            ((valuesFor sites f).indexOf (listMax (valuesFor sites f))) "" ∧
        (mkInsight sites f).max_val = listMax (valuesFor sites f) ∧
        (mkInsight sites f).min_site =
          (sites.map Prod.fst).getD
            ((valuesFor sites f).indexOf (listMin (valuesFor sites f))) "" ∧
        (mkInsight sites f).min_val = listMin (valuesFor sites f) ∧
        (mkInsight sites f).variance = varianceFor sites f) ∧
    (∀ sites : List (String × Option FeatureMap),
      (insights sites).Pairwise insightGE ∧
      (insights sites).Perm ((goodFeatures sites).map (mkInsight sites))) ∧
    (classify (varianceFor sitesEx "f") = Tier.good ∧ insights sitesEx = [insightEx]) := by
  refine ⟨?_, ?_, ?_, insights_sitesEx⟩
  · intro sites f hgf
    have h1 := List.mem_filter.mp hgf
    have hvar : 3/10 < varianceFor sites f := of_decide_eq_true h1.2
    obtain ⟨p, hp, -, -⟩ := mem_all_features h1.1
    have hslen : sites ≠ [] := List.ne_nil_of_mem hp
    have hne : valuesFor sites f ≠ [] := by
      intro hcontra
      have hz : (valuesFor sites f).length = 0 := by rw [hcontra]; rfl
      rw [valuesFor_length] at hz
      exact hslen (List.length_eq_zero.mp hz)
    have hltmax := List.indexOf_lt_length.mpr (listMax_mem hne)
    have hltmin := List.indexOf_lt_length.mpr (listMin_mem hne)
    rw [valuesFor_length] at hltmax hltmin
    refine ⟨⟨h1.1, hvar⟩,
      (List.perm_insertionSort insightGE
        ((goodFeatures sites).map (mkInsight sites))).mem_iff.mpr ?_, hltmax,
      valuesFor_getD_indexOf_max sites f hne,
      fun j hj => getD_ne_of_lt_indexOf hj, hltmin,
      valuesFor_getD_indexOf_min sites f hne,
      fun j hj => getD_ne_of_lt_indexOf hj, rfl, ?_, rfl, ?_, rfl⟩
    · exact List.mem_map_of_mem _ hgf
    · exact valuesFor_getD_indexOf_max sites f hne
    · exact valuesFor_getD_indexOf_min sites f hne
  · intro sites
    exact ⟨List.sorted_insertionSort insightGE _, List.perm_insertionSort insightGE _⟩
  · rw [varianceFor_sitesEx]
    rw [classify_good_iff]
    norm_num

/-- C7 witness: the universally quantified part instantiated at `sitesEx` and
its good feature `f`. -/
theorem claim_C7_witness :
    "f" ∈ goodFeatures sitesEx ∧ mkInsight sitesEx "f" ∈ insights sitesEx := by
  have hmem : "f" ∈ goodFeatures sitesEx := by
    rw [goodFeatures_sitesEx]
    exact List.mem_cons_self "f" []
  exact ⟨hmem, (claim_C7.1 sitesEx "f" hmem).2.1⟩

theorem extractGo_eq (interp : List (String × ℚ)) :
    ∀ pairs : List (ℕ × String),
      (∀ p ∈ pairs, matchesKeyword p.2 = true → (interp.lookup (pyStr p.1)).isSome = true) →
      extractGo interp pairs =
        some (pairs.filterMap (fun p =>
          if matchesKeyword p.2 then
            (interp.lookup (pyStr p.1)).map (fun v => (p.2, v))
          else none)) := by
  intro pairs
  induction pairs with
  | nil => intro _; rfl
  | cons q rest ih =>
    intro h
    obtain ⟨i, name⟩ := q
    have hrest := ih (fun p hp hm => h p (List.mem_cons_of_mem _ hp) hm)
    by_cases hm : matchesKeyword name = true
    · obtain ⟨v, hv⟩ := Option.isSome_iff_exists.mp
        (h (i, name) (List.mem_cons_self _ _) hm)
      simp only [extractGo, List.filterMap_cons, hm, if_true, hv, hrest,
        Option.map_some']
    · simp only [extractGo, List.filterMap_cons, hm, if_false, hrest]
      simp

/-- C8.  For every well-formed FeatureVectorDocument the extractor succeeds,
its output has size at most `len(featureNames)`, its keys are exactly the
names containing one of the twelve canonical keywords as a substring, and
each entry's value is the interpretable entry at the stringified original
index of that name. -/
theorem claim_C8 (doc : VectorDoc) (h : wellFormed doc) :
    (extract_layout_features doc).isSome = true ∧
    ((extract_layout_features doc).getD []).length ≤ doc.featureNames.length ∧
    (∀ name, name ∈ ((extract_layout_features doc).getD []).map Prod.fst ↔
      name ∈ doc.featureNames ∧ matchesKeyword name = true) ∧
    (∀ name v, (name, v) ∈ (extract_layout_features doc).getD [] →
      ∃ i, doc.featureNames.get? i = some name ∧
        doc.interpretable.lookup (pyStr i) = some v) := by
  obtain ⟨-, -, hlook⟩ := h
  have hps : ∀ p ∈ doc.featureNames.enum, matchesKeyword p.2 = true →
      (doc.interpretable.lookup (pyStr p.1)).isSome = true := by
    intro p hp _
    have hget := List.mem_enum_iff_get?.mp hp
    have hlt : p.1 < doc.featureNames.length := by
      rcases List.get?_eq_some.mp hget with ⟨hw, -⟩
      exact hw
    exact hlook p.1 hlt
  have heq := extractGo_eq doc.interpretable doc.featureNames.enum hps
  have hval : extract_layout_features doc =
      some (doc.featureNames.enum.filterMap (fun p =>
        if matchesKeyword p.2 then
          (doc.interpretable.lookup (pyStr p.1)).map (fun v => (p.2, v))
        else none)) := heq
  rw [hval]
  refine ⟨rfl, ?_, ?_, ?_⟩
  · simp only [Option.getD_some]
    calc (doc.featureNames.enum.filterMap _).length
        ≤ doc.featureNames.enum.length := List.length_filterMap_le _ _
      _ = doc.featureNames.length := List.enum_length
  · intro name
    simp only [Option.getD_some, List.mem_map]
    constructor
    · rintro ⟨⟨nm, v⟩, hmem2, rfl⟩
      obtain ⟨p, hp, hg⟩ := List.mem_filterMap.mp hmem2
      by_cases hm : matchesKeyword p.2 = true
      · rw [if_pos hm] at hg
        cases hl : doc.interpretable.lookup (pyStr p.1) with
        | none => rw [hl] at hg; exact Option.noConfusion hg
        | some w =>
          rw [hl] at hg
          simp only [Option.map_some', Option.some.injEq, Prod.mk.injEq] at hg
          obtain ⟨hnm, -⟩ := hg
          have hget := List.mem_enum_iff_get?.mp hp
          subst hnm
          exact ⟨List.get?_mem hget, hm⟩
      · rw [if_neg hm] at hg
        exact Option.noConfusion hg
    · rintro ⟨hmem, hm⟩
      obtain ⟨i, hget⟩ := List.mem_iff_get?.mp hmem
      have hp : (i, name) ∈ doc.featureNames.enum := List.mk_mem_enum_iff_get?.mpr hget
      have hlt : i < doc.featureNames.length := by
        rcases List.get?_eq_some.mp hget with ⟨hw, -⟩
        exact hw
      obtain ⟨v, hv⟩ := Option.isSome_iff_exists.mp (hlook i hlt)
      refine ⟨(name, v), List.mem_filterMap.mpr ⟨(i, name), hp, ?_⟩, rfl⟩
      rw [if_pos hm, hv, Option.map_some']
  · intro name v hmem
    simp only [Option.getD_some] at hmem
    obtain ⟨p, hp, hg⟩ := List.mem_filterMap.mp hmem
    by_cases hm : matchesKeyword p.2 = true
    · rw [if_pos hm] at hg
      cases hl : doc.interpretable.lookup (pyStr p.1) with
      | none => rw [hl] at hg; exact Option.noConfusion hg
      | some w =>
        rw [hl] at hg
        simp only [Option.map_some', Option.some.injEq, Prod.mk.injEq] at hg
        obtain ⟨rfl, rfl⟩ := hg
        exact ⟨p.1, List.mem_enum_iff_get?.mp (by simpa using hp), hl⟩
    · rw [if_neg hm] at hg
      exact Option.noConfusion hg

/-- C8 witness: the robustness statement instantiated on the concrete
document `doc1`, whose names 0 and 2 match canonical keywords. -/
theorem claim_C8_witness :
    wellFormed doc1 ∧ (extract_layout_features doc1).isSome = true ∧
    extract_layout_features doc1 =
      some [("typo_hierarchy_depth", 1/4), ("spacing_density_score", 1/2)] := by
  have hwf : wellFormed doc1 := by
    refine ⟨by decide, by rfl, ?_⟩
    intro i hi
    have h3 : i < 3 := by simpa [doc1] using hi
    interval_cases i <;> decide
  exact ⟨hwf, (claim_C8 doc1 hwf).1, by rfl⟩

/-- C1 witness: the amended claim instantiated on the empty element list and
an 800×600 viewport. -/
theorem claim_C1_witness :
    (all_padding_values ([] : List Element)).isSome = true ∧
    ((analyze_raw_elements [] ⟨800, 600⟩).isSome = true ∧
      (analyze_raw_elements [] ⟨800, 600⟩).map RawStats.img_text_ratio =
        some (if text_area_of [] > 0 then img_area_of [] / text_area_of [] else 0) ∧
      (text_area_of [] = 0 →
        (analyze_raw_elements [] ⟨800, 600⟩).map RawStats.img_text_ratio = some 0)) :=
  ⟨by simp [all_padding_values, parseAll],
   (claim_C1 [] ⟨800, 600⟩ (by simp [all_padding_values, parseAll])).2 (by norm_num)⟩

end LayoutDiag
